import Mathlib

/-!
# Verification of the torchsupport graph-batch core

A shallow embedding, in Lean 4, of the graph-batch data model and the
message-passing / pooling operations of the `torchsupport` repository
(`torchsupport/modules/nodegraph.py`,
`torchsupport/modules/structured/entitynn.py`,
`torchsupport/structured/modules/pooling.py`), together with theorems
settling the specification's claims about them.

Modelling conventions:
* A torch tensor of node features is a `List (List ℚ)` of rows (the
  singleton middle dimension produced by `unsqueeze` is dropped; it carries
  no information).  Rational numbers stand in for floats; no claim below
  depends on rounding.
* Python exceptions are modelled with `Except String`; an operation that
  mutates `self` is a function returning the pair of its result and the
  post-state, so that partially applied mutations at the moment an
  exception is raised stay observable.
* Python's `l[a:b]` slice is `pySlice`; list indexing is in-range indexing
  (`getD` / explicit bounds).  Python's negative-index aliasing is outside
  the modelled domain: all indices handled here are natural numbers, and
  an index `≥ len` raises `IndexError` exactly as CPython does.
-/

/-- Python's list slice `l[start:stop]` (for non-negative bounds). -/
def pySlice (l : List α) (start stop : ℕ) : List α :=
  (l.take stop).drop start

/-- The `NodeGraphTensor` state: fields as initialised by
`NodeGraphTensor.__init__` in `nodegraph.py`.  `_node_tensor` holds one
feature row per node; `_adjacency` one neighbour list per node. -/
structure NodeGraphTensor where
  is_subgraph : Bool
  offset : ℕ
  num_graphs : ℕ
  graph_nodes : List ℕ
  _adjacency : List (List ℕ)
  _node_tensor : List (List ℚ)
deriving Repr, DecidableEq

namespace NodeGraphTensor

/-- A freshly constructed empty batch (`NodeGraphTensor()` with no
descriptor): one graph, zero nodes, empty adjacency and feature storage. -/
def fresh : NodeGraphTensor :=
  { is_subgraph := false
    offset := 0
    num_graphs := 1
    graph_nodes := [0]
    _adjacency := []
    _node_tensor := [] }

/-- `nodes_including(graph_index)`: `sum(self.graph_nodes[:graph_index+1])`. -/
def nodes_including (g : NodeGraphTensor) (graph_index : ℕ) : ℕ :=
  (g.graph_nodes.take (graph_index + 1)).sum

/-- The start of the slice used by the sub-view getters:
`0 if self.offset == 0 else self.nodes_including(self.offset - 1)`. -/
def viewStart (g : NodeGraphTensor) : ℕ :=
  if g.offset = 0 then 0 else g.nodes_including (g.offset - 1)

/-- The `adjacency` property: for a sub-view, the slice of `_adjacency`
covering the selected graph; otherwise the raw `_adjacency`. -/
def adjacency (g : NodeGraphTensor) : List (List ℕ) :=
  if g.is_subgraph then
    pySlice g._adjacency g.viewStart (g.nodes_including g.offset)
  else
    g._adjacency

/-- The value returned by the `node_tensor` property getter: feature rows
(`Sum.inl`) on the sub-view branch, but the *adjacency list* (`Sum.inr`) on
the root branch — the getter's `else` branch returns `self._adjacency`,
not `self._node_tensor`. -/
def node_tensor (g : NodeGraphTensor) : List (List ℚ) ⊕ List (List ℕ) :=
  if g.is_subgraph then
    Sum.inl (pySlice g._node_tensor g.viewStart (g.nodes_including g.offset))
  else
    Sum.inr g._adjacency

/-- `add_node(node_tensor)`: asserts a single graph, increments the current
graph's node count, appends an empty adjacency slot, and splices the new
feature row into `_node_tensor` at position `nodes_including(offset)`
(computed after the increment).  Returns the final row count minus one.
The returned state is the batch at the moment the call finishes or
raises. -/
def addNode (g : NodeGraphTensor) (row : List ℚ) :
    Except String ℕ × NodeGraphTensor :=
  if g.num_graphs ≠ 1 then
    (Except.error "AssertionError", g)
  else if g.offset < g.graph_nodes.length then
    let counts := g.graph_nodes.set g.offset (g.graph_nodes.getD g.offset 0 + 1)
    let g1 : NodeGraphTensor :=
      { g with
        graph_nodes := counts
        _adjacency := g._adjacency ++ [[]] }
    let cut := g1.nodes_including g1.offset
    let nt := g1._node_tensor.take cut ++ [row] ++ g1._node_tensor.drop cut
    (Except.ok (nt.length - 1), { g1 with _node_tensor := nt })
  else
    -- `self.graph_nodes[self.offset] += 1` raises IndexError on the read,
    -- before anything is written.
    (Except.error "IndexError", g)

/-- The two in-place appends performed by `add_edge` on a plain adjacency
list, with the Python evaluation order: `adjacency[source].append(target)`
first, then `adjacency[target].append(source)`.  Returns the final list
together with `len(adjacency[source]) - 1` on success; on an IndexError it
returns the list as mutated so far. -/
def edgeSteps (adj : List (List ℕ)) (source target : ℕ) :
    Except String ℕ × List (List ℕ) :=
  if source < adj.length then
    let adj1 := adj.set source (adj.getD source [] ++ [target])
    if target < adj1.length then
      let adj2 := adj1.set target (adj1.getD target [] ++ [source])
      (Except.ok ((adj2.getD source []).length - 1), adj2)
    else
      (Except.error "IndexError", adj1)
  else
    (Except.error "IndexError", adj)

/-- The two in-place appends of `add_edge` as seen through a sub-view's
`adjacency` property.  Each property read builds a fresh *shallow* slice
`_adjacency[start:start+L]`: the outer list is new, but the inner
neighbour lists are the very objects stored in `_adjacency`, so
`slice[source].append(target)` mutates `_adjacency[start + source]` in
the shared storage.  Bounds are checked against the slice length `L`;
on an IndexError the storage keeps the mutations made so far. -/
def edgeStepsView (adj : List (List ℕ)) (start L source target : ℕ) :
    Except String ℕ × List (List ℕ) :=
  if source < L then
    let adj1 := adj.set (start + source)
      (adj.getD (start + source) [] ++ [target])
    if target < L then
      let adj2 := adj1.set (start + target)
        (adj1.getD (start + target) [] ++ [source])
      (Except.ok ((adj2.getD (start + source) []).length - 1), adj2)
    else
      (Except.error "IndexError", adj1)
  else
    (Except.error "IndexError", adj)

/-- `add_edge(source, target)`: appends `target` to `adjacency[source]`
and `source` to `adjacency[target]`, through the `adjacency` property.
On a root batch the property aliases `_adjacency`, so the appends hit the
stored lists directly; on a sub-view each property read returns a fresh
shallow slice whose inner lists are shared with `_adjacency`, so the
appends land at the window positions `viewStart + source` and
`viewStart + target` of the shared storage, with bounds checked against
the slice length. -/
def addEdge (g : NodeGraphTensor) (source target : ℕ) :
    Except String ℕ × NodeGraphTensor :=
  if g.is_subgraph then
    let r := edgeStepsView g._adjacency g.viewStart g.adjacency.length
      source target
    (r.1, { g with _adjacency := r.2 })
  else
    let r := edgeSteps g._adjacency source target
    (r.1, { g with _adjacency := r.2 })

/-- `append(graph_tensor)` exactly as executed by CPython.  After the
`offset == 0` assertion, `self.num_graphs` is updated; then
`self.adjacency += list(map(lambda x: x + len(self._adjacency), other.adjacency))`
runs: the mapped lambda adds the integer `len(self._adjacency)` to each
*neighbour list* `x`, which raises `TypeError` as soon as `other.adjacency`
is non-empty; when it is empty the in-place extend is a no-op and the
statement still raises `AttributeError`, because the `adjacency` property
has no setter.  Execution therefore never reaches the `graph_nodes` and
`_node_tensor` updates. -/
def appendCode (g other : NodeGraphTensor) :
    Except String Unit × NodeGraphTensor :=
  if g.offset ≠ 0 then
    (Except.error "AssertionError", g)
  else
    let g1 := { g with num_graphs := g.num_graphs + other.num_graphs }
    if other.adjacency ≠ [] then
      (Except.error "TypeError", g1)
    else
      (Except.error "AttributeError", g1)

/-- The `append` the specification describes (§4.1, §8): concatenate the
feature rows, shift every neighbour index of `other` by the pre-merge
total node count and concatenate the adjacency lists, and concatenate the
per-graph node counts. -/
def appendSpec (g other : NodeGraphTensor) : NodeGraphTensor :=
  { g with
    num_graphs := g.num_graphs + other.num_graphs
    graph_nodes := g.graph_nodes ++ other.graph_nodes
    _adjacency := g._adjacency ++
      other._adjacency.map (fun l => l.map (fun x => x + g._adjacency.length))
    _node_tensor := g._node_tensor ++ other._node_tensor }

/-- Total node count of a batch: `sum(graph_nodes)` (the spec's `N_total`). -/
def Ntotal (g : NodeGraphTensor) : ℕ :=
  g.graph_nodes.sum

/-- Repeated `add_node`: fold over a list of feature rows, collecting
each call's result. -/
def addNodes (g : NodeGraphTensor) :
    List (List ℚ) → List (Except String ℕ) × NodeGraphTensor
  | [] => ([], g)
  | row :: rest =>
    let r := g.addNode row
    let rec' := addNodes r.2 rest
    (r.1 :: rec'.1, rec'.2)

end NodeGraphTensor

/-! ## Neighbourhood traversal (`standard_node_traversal`) -/

/-- `standard_node_traversal(depth)` applied to a graph and a start node.
Depth 0 returns `[entity]`; otherwise the node itself, its adjacency entry
(through the `adjacency` property), the recursive expansions of every
neighbour different from the node, and a final `list(set(nodes))`
deduplication.  CPython's set-iteration order is unspecified, so only the
underlying set of the result is meaningful; `List.dedup` is used as the
canonical deduplication.  An out-of-range start node raises in Python;
here the lookup defaults to `[]`, and the theorems below quantify over
in-range nodes of well-formed graphs. -/
def standard_node_traversal (g : NodeGraphTensor) : ℕ → ℕ → List ℕ
  | 0, entity => [entity]
  | d + 1, entity =>
    let edges := g.adjacency.getD entity []
    (entity :: edges ++
      (edges.filter (fun x => x ≠ entity)).flatMap
        (fun x => standard_node_traversal g d x)).dedup

/-- The specification's recursion for default traversal (§4.3), stated
directly on finite sets: depth 0 is `{self}`; depth `d+1` is `{self}`
united with the direct neighbours and with the depth-`d` expansion of
every neighbour other than self. -/
def traversalSpecSet (g : NodeGraphTensor) : ℕ → ℕ → Finset ℕ
  | 0, entity => {entity}
  | d + 1, entity =>
    let nbrs := (g.adjacency.getD entity []).toFinset
    insert entity
      (nbrs ∪ (nbrs.erase entity).biUnion (fun x => traversalSpecSet g d x))

/-- The fixed 5-node path graph 0-1-2-3-4 used by the spec's traversal
test (§8), with unit features. -/
def pathGraph : NodeGraphTensor :=
  { is_subgraph := false
    offset := 0
    num_graphs := 1
    graph_nodes := [5]
    _adjacency := [[1], [0, 2], [1, 3], [2, 4], [3]]
    _node_tensor := [[1], [1], [1], [1], [1]] }

/-- `pathGraph` with every adjacency list enumerated in the opposite
order: the same graph up to neighbour enumeration order. -/
def pathGraphRev : NodeGraphTensor :=
  { pathGraph with _adjacency := [[1], [2, 0], [3, 1], [4, 2], [3]] }

/-! ## Aggregation strategies (`structured/entitynn.py`)

A neighbour-message matrix is a list of rows together with its column
count, which a torch tensor carries even when it has zero rows. -/

/-- A 2-D tensor: `width` columns, `rows.length` rows. -/
structure Mat where
  width : ℕ
  rows : List (List ℚ)
deriving Repr, DecidableEq

/-- The all-zero vector of a given width. -/
def zeroVec (w : ℕ) : List ℚ :=
  List.replicate w 0

/-- Column `j` of a matrix, as a list of scalars. -/
def colOf (m : Mat) (j : ℕ) : List ℚ :=
  m.rows.map (fun r => r.getD j 0)

/-- `torch.sum(m, dim=0)`: columnwise sums.  On a matrix with zero rows
this is the zero vector of width `m.width`. -/
def torchSumDim0 (m : Mat) : List ℚ :=
  (List.range m.width).map (fun j => (colOf m j).sum)

/-- `torch.mean(m, dim=0)`: columnwise means.  On a matrix with zero rows
torch returns a vector of NaNs (0/0); `none` stands for that non-numeric
result, which has no rational value. -/
def torchMeanDim0 (m : Mat) : Option (List ℚ) :=
  if m.rows.isEmpty then none
  else some ((torchSumDim0 m).map (fun s => s / m.rows.length))

/-- `torch.min(m, dim=0)`: columnwise minima with the index of the first
attaining row, as torch's `(values, indices)` pair.  On a matrix with zero
rows torch raises `RuntimeError` (reduction over no elements); `none`
stands for that error. -/
def torchMinDim0 (m : Mat) : Option (List ℚ × List ℕ) :=
  if m.rows.isEmpty then none
  else some
    ((List.range m.width).map (fun j => ((colOf m j).min?).getD 0),
     (List.range m.width).map (fun j =>
       (colOf m j).indexOf (((colOf m j).min?).getD 0)))

/-- `torch.max(m, dim=0)`: columnwise maxima with indices; `none` stands
for the `RuntimeError` torch raises on a matrix with zero rows. -/
def torchMaxDim0 (m : Mat) : Option (List ℚ × List ℕ) :=
  if m.rows.isEmpty then none
  else some
    ((List.range m.width).map (fun j => ((colOf m j).max?).getD 0),
     (List.range m.width).map (fun j =>
       (colOf m j).indexOf (((colOf m j).max?).getD 0)))

/-- `torch.median(m, dim=0)`: columnwise lower medians (the element at
sorted position `(n-1)/2`) with the index of an attaining row; `none`
stands for the `RuntimeError` torch raises on a matrix with zero rows. -/
def torchMedianDim0 (m : Mat) : Option (List ℚ × List ℕ) :=
  if m.rows.isEmpty then none
  else some
    ((List.range m.width).map (fun j =>
       ((colOf m j).insertionSort (· ≤ ·)).getD ((m.rows.length - 1) / 2) 0),
     (List.range m.width).map (fun j =>
       (colOf m j).indexOf
         (((colOf m j).insertionSort (· ≤ ·)).getD ((m.rows.length - 1) / 2) 0)))

/-- `NeighbourReducer.reduce(own_data, source_message)`: applies the
stored reduction along dimension 0, ignoring `own_data`. -/
def NeighbourReducer.reduce (reduction : Mat → α) (_own : List ℚ) (msg : Mat) : α :=
  reduction msg

/-- `nn.Linear(W, b)` applied to a vector: `out_j = Σ_k W_j_k · v_k + b_j`,
with `W` a list of output rows. -/
def linApp (W : List (List ℚ)) (b : List ℚ) (v : List ℚ) : List ℚ :=
  (W.zip b).map (fun p => ((p.1.zip v).map (fun q => q.1 * q.2)).sum + p.2)

/-- Elementwise ReLU. -/
def reluVec (v : List ℚ) : List ℚ :=
  v.map (fun x => max 0 x)

/-- `NeighbourLinear.reduce(own_data, source_messages)` :
`own_data + func.relu(self.linear(source_messages)).mean(dim=0, keepdim=True)`.
The linear map and the ReLU act on each message row; the mean over rows is
taken afterwards.  `none` stands for the NaN vector the mean produces on
an empty message matrix. -/
def NeighbourLinear.reduce (W : List (List ℚ)) (b : List ℚ)
    (own : List ℚ) (msg : Mat) : Option (List ℚ) :=
  (torchMeanDim0 ⟨W.length, msg.rows.map (fun r => reluVec (linApp W b r))⟩).map
    (fun mv => List.zipWith (· + ·) own mv)

/-- The formula the specification's table gives for `LinearNeighbour`:
`own + relu(linear(mean(messages)))` — mean first, then the linear map and
the ReLU.  Stated from the spec's words, for comparison with the code's
`NeighbourLinear.reduce`. -/
def NeighbourLinear.reduceSpecFormula (W : List (List ℚ)) (b : List ℚ)
    (own : List ℚ) (msg : Mat) : Option (List ℚ) :=
  (torchMeanDim0 msg).map
    (fun mv => List.zipWith (· + ·) own (reluVec (linApp W b mv)))

/-- A softmax row, parameterised by the pointwise exponential-like map
`e` (`Real.exp` in torch, which has no rational counterpart; every theorem
using this carries the positivity of `e` as a hypothesis). -/
def softmaxRow (e : ℚ → ℚ) (r : List ℚ) : List ℚ :=
  r.map (fun x => e x / (r.map e).sum)

/-- `NeighbourAttention.reduce(own_data, source_message)` with its
externally supplied attention callable (modelled as producing one scalar
weight per message row): `(attention * source_message).sum(dim=0)`. -/
def NeighbourAttention.reduce (att : List ℚ → Mat → List ℚ)
    (own : List ℚ) (msg : Mat) : List ℚ :=
  torchSumDim0
    ⟨msg.width,
     List.zipWith (fun w r => r.map (fun x => w * x)) (att own msg) msg.rows⟩

/-- `NeighbourDotAttention.reduce(own_data, source_message)`:
`target = attention_local(embedding(own))`, one scalar per message from
`attention_neighbour(embedding(message))`, then
`(softmax(target + source, dim=1) * source_message).sum(dim=0)`.
The softmax acts along dimension 1, whose extent is 1, so each weight row
is the softmax of a singleton. -/
def NeighbourDotAttention.reduce (e : ℚ → ℚ)
    (Wemb : List (List ℚ)) (bemb : List ℚ)
    (Wloc : List (List ℚ)) (bloc : List ℚ)
    (Wnbr : List (List ℚ)) (bnbr : List ℚ)
    (own : List ℚ) (msg : Mat) : List ℚ :=
  let target := linApp Wloc bloc (linApp Wemb bemb own)
  let source := msg.rows.map (fun r => linApp Wnbr bnbr (linApp Wemb bemb r))
  let weights := source.map (fun s => softmaxRow e (List.zipWith (· + ·) target s))
  torchSumDim0
    ⟨msg.width,
     List.zipWith (fun w r => r.map (fun x => w.getD 0 0 * x)) weights msg.rows⟩

/-! ## The neighbourhood module (`NodeGraphNeighbourhood.forward`) -/

/-- The gathering loop of `NodeGraphNeighbourhood.forward` on an
unpartitioned batch: for every node of `_node_tensor`, collect its
neighbourhood with the traversal, passing it through the optional
ordering function. -/
def NodeGraphNeighbourhood.gather
    (traversal : NodeGraphTensor → ℕ → List ℕ)
    (order : Option (NodeGraphTensor → List ℕ → List ℕ))
    (g : NodeGraphTensor) : List (List ℕ) :=
  (List.range g._node_tensor.length).map (fun n =>
    match order with
    | none => traversal g n
    | some o => o g (traversal g n))

/-- `NodeGraphNeighbourhood.forward(graph, include_self=True)`: gather
the neighbourhoods, apply the reducer to the whole batch of them, and
concatenate the reduced rows to `_node_tensor` along dimension 1.  The
`include_self` argument is accepted and never read by the body.
(`torch.cat(·, 1)` requires matching row counts; the reducers of
`nodegraph.py` return one row per node, which `zipWith` mirrors.) -/
def NodeGraphNeighbourhood.forward
    (reducer : NodeGraphTensor → List (List ℕ) → List (List ℚ))
    (traversal : NodeGraphTensor → ℕ → List ℕ)
    (order : Option (NodeGraphTensor → List ℕ → List ℕ))
    (g : NodeGraphTensor) (_include_self : Bool) : NodeGraphTensor :=
  let full_nodes := NodeGraphNeighbourhood.gather traversal order g
  let reduced := reducer g full_nodes
  { g with _node_tensor := List.zipWith (· ++ ·) g._node_tensor reduced }

/-- The **replace** output mode the specification demands (§4.5): each
processed node's feature vector is overwritten with the aggregated
result.  Stated from the spec's words, for comparison with the code's
`NodeGraphNeighbourhood.forward`. -/
def NodeGraphNeighbourhood.replaceSpec
    (reducer : NodeGraphTensor → List (List ℕ) → List (List ℚ))
    (traversal : NodeGraphTensor → ℕ → List ℕ)
    (order : Option (NodeGraphTensor → List ℕ → List ℕ))
    (g : NodeGraphTensor) : NodeGraphTensor :=
  let full_nodes := NodeGraphNeighbourhood.gather traversal order g
  { g with _node_tensor := reducer g full_nodes }

/-! ## Grouped attention pooling (`structured/modules/pooling.py`)

`MILAttention.combine` drives two operations of the `scatter` module,
which is part of this repository but absent from the sources at hand;
they are modelled from the spec (§4.6 and glossary). -/

/-- Modelled from the spec: the ordered list of group ids present in a
per-node index vector — one entry per non-empty group, ascending (the
`scatter` module's segment layout; §4.6: "one row per non-empty group,
ordered by ascending group id; empty groups contribute no row"). -/
def scatterGroups (indices : List ℕ) : List ℕ :=
  (indices.dedup.insertionSort (· ≤ ·))

/-- Modelled from the spec: `scatter.softmax(logits, indices)`, the
grouped (segment) softmax — entry `h` of row `n` is normalised over the
rows sharing `indices[n]`, so that weights of nodes sharing a group id
sum to 1 within that group only.  Parameterised by the exponential-like
map `e` (torch uses `exp`, which has no rational counterpart). -/
def scatterSoftmax (e : ℚ → ℚ) (logits : List (List ℚ)) (indices : List ℕ) :
    List (List ℚ) :=
  (logits.zip indices).map (fun p =>
    p.1.mapIdx (fun h x =>
      e x / (((logits.zip indices).filter (fun q => q.2 = p.2)).map
        (fun q => e (q.1.getD h 0))).sum))

/-- Modelled from the spec: `scatter.sum(rows, indices)`, the segment
sum — one output row per non-empty group in ascending group-id order,
each the columnwise sum of the rows carrying that group id. -/
def scatterSum (w : ℕ) (rows : List (List ℚ)) (indices : List ℕ) :
    List (List ℚ) :=
  (scatterGroups indices).map (fun gid =>
    torchSumDim0 ⟨w, ((rows.zip indices).filter (fun q => q.2 = gid)).map Prod.fst⟩)

/-- The parameters of `MILAttention(in_size, out_size, attention_size,
heads)`: the five linear layers, plus the activation maps `tanh`, `sigmoid`
and `exp`, which have no rational counterpart and are taken as
parameters. -/
structure MILAttentionParams where
  heads : ℕ
  attention_size : ℕ
  Wq : List (List ℚ)
  bq : List ℚ
  Wg : List (List ℚ)
  bg : List ℚ
  Wk : List (List ℚ)
  bk : List ℚ
  Wv : List (List ℚ)
  bv : List ℚ
  Wo : List (List ℚ)
  bo : List ℚ
  tanh : ℚ → ℚ
  sigmoid : ℚ → ℚ
  exp : ℚ → ℚ

/-- The per-node attention logits of `MILAttention.combine`:
`self.query(torch.tanh(self.key(nodes)) * torch.sigmoid(self.gate(nodes)))`,
one row of `heads` logits per node. -/
def milLogits (P : MILAttentionParams) (nodes : List (List ℚ)) :
    List (List ℚ) :=
  nodes.map (fun x =>
    linApp P.Wq P.bq
      (List.zipWith (· * ·)
        ((linApp P.Wk P.bk x).map P.tanh)
        ((linApp P.Wg P.bg x).map P.sigmoid)))

/-- The pooling pipeline the specification describes (§4.6), with the
missing `indices` argument supplied to the segment sum: segment-softmax
the logits, project values, weight value entry `p` of node `n` by the
head weight `weight[n][p % heads]` (the `(…, 1, heads)` × `(…, -1, heads)`
broadcast of the code), segment-sum within each group, flatten, and apply
the output projection. -/
def milCombineSpec (P : MILAttentionParams) (nodes : List (List ℚ))
    (indices : List ℕ) : List (List ℚ) :=
  let weight := scatterSoftmax P.exp (milLogits P nodes) indices
  let value := nodes.map (fun x => linApp P.Wv P.bv x)
  let weighted := List.zipWith
    (fun w v => v.mapIdx (fun p x => w.getD (p % P.heads) 0 * x)) weight value
  (scatterSum (P.heads * P.attention_size) weighted indices).map
    (fun r => linApp P.Wo P.bo r)

/-- `MILAttention.combine` exactly as written: it computes the logits,
the segment-softmax weights and the value projection, and then calls
`scatter.sum(weight * value)` — without the `indices` argument the
segment sum requires — so the call raises `TypeError` before any pooled
row is produced. -/
def milCombineCode (P : MILAttentionParams) (nodes : List (List ℚ))
    (indices : List ℕ) : Except String (List (List ℚ)) :=
  let weight := scatterSoftmax P.exp (milLogits P nodes) indices
  let value := nodes.map (fun x => linApp P.Wv P.bv x)
  let _weighted := List.zipWith
    (fun w v => v.mapIdx (fun p x => w.getD (p % P.heads) 0 * x)) weight value
  Except.error "TypeError: scatter.sum() missing required argument: indices"

/-- The sum of the grouped-softmax weights of head `h` over the nodes of
group `gid` (the quantity the spec requires to equal 1 for every
non-empty group). -/
def groupWeightSum (weight : List (List ℚ)) (indices : List ℕ)
    (gid h : ℕ) : ℚ :=
  (((weight.zip indices).filter (fun q => q.2 = gid)).map
    (fun q => q.1.getD h 0)).sum

/-! ## Concrete instances used by the closed theorems below -/

/-- A root batch holding one graph with a single node and no edges. -/
def exOneNode : NodeGraphTensor :=
  { is_subgraph := false, offset := 0, num_graphs := 1
    graph_nodes := [1], _adjacency := [[]], _node_tensor := [[1]] }

/-- A root batch holding one graph with two nodes and no edges. -/
def exTwoNodes : NodeGraphTensor :=
  { is_subgraph := false, offset := 0, num_graphs := 1
    graph_nodes := [2], _adjacency := [[], []], _node_tensor := [[1], [2]] }

/-- A root batch holding one graph with two nodes joined by an edge
(the right-hand operand of the `append` scenario). -/
def exEdgePair : NodeGraphTensor :=
  { is_subgraph := false, offset := 0, num_graphs := 1
    graph_nodes := [2], _adjacency := [[1], [0]], _node_tensor := [[2], [3]] }

/-- A sub-view selecting the second graph (rows 1 and 2) of a two-graph
batch. -/
def exSubview : NodeGraphTensor :=
  { is_subgraph := true, offset := 1, num_graphs := 2
    graph_nodes := [1, 2], _adjacency := [[], [2], [1]]
    _node_tensor := [[1], [2], [3]] }

/-- The node features of the pooling example: five one-dimensional nodes. -/
def milNodes : List (List ℚ) :=
  [[1], [2], [3], [4], [5]]

/-- The group ids of the pooling example: a group of three nodes and a
group of two. -/
def milIndices : List ℕ :=
  [0, 0, 0, 1, 1]

/-- `MILAttention(1, 1, 1, 1)` with identity-like weights: every linear
layer is `1·x + 0`, and the activations are the identity.  The
exponential map of the segment softmax stays a parameter. -/
def milP1 (e : ℚ → ℚ) : MILAttentionParams :=
  { heads := 1, attention_size := 1
    Wq := [[1]], bq := [0], Wg := [[1]], bg := [0]
    Wk := [[1]], bk := [0], Wv := [[1]], bv := [0]
    Wo := [[1]], bo := [0]
    tanh := fun x => x, sigmoid := fun x => x, exp := e }

/-! ## Helper lemmas -/

lemma getD_set_self (l : List α) (i : ℕ) (h : i < l.length) (a d : α) :
    (l.set i a).getD i d = a := by
  simp [List.getD_eq_getElem?_getD, List.getElem?_set_self, h]

lemma getD_set_ne (l : List α) {i j : ℕ} (h : i ≠ j) (a d : α) :
    (l.set i a).getD j d = l.getD j d := by
  simp [List.getD_eq_getElem?_getD, List.getElem?_set_ne, h]

lemma get_eq_getD (l : List α) (i : ℕ) (h : i < l.length) (d : α) :
    l.get ⟨i, h⟩ = l.getD i d := by
  simp [List.getD_eq_getElem?_getD, List.getElem?_eq_getElem h]

lemma viewStart_eq (g : NodeGraphTensor) :
    g.viewStart = (g.graph_nodes.take g.offset).sum := by
  unfold NodeGraphTensor.viewStart NodeGraphTensor.nodes_including
  rcases h : g.offset with _ | o <;> simp [h]

/-- One successful `add_node` on a single-graph root batch appends the
row, bumps the count, and returns the new row's index. -/
lemma addNode_step (g : NodeGraphTensor) (n : ℕ) (row : List ℚ)
    (h1 : g.num_graphs = 1) (h2 : g.offset = 0) (h3 : g.graph_nodes = [n])
    (h4 : g._node_tensor.length = n) :
    g.addNode row = (Except.ok n,
      { g with graph_nodes := [n + 1]
               _adjacency := g._adjacency ++ [[]]
               _node_tensor := g._node_tensor ++ [row] }) := by
  unfold NodeGraphTensor.addNode
  rw [if_neg (by simp [h1])]
  have hlt : g.offset < g.graph_nodes.length := by simp [h2, h3]
  rw [if_pos hlt]
  have hset : g.graph_nodes.set g.offset (g.graph_nodes.getD g.offset 0 + 1)
      = [n + 1] := by
    simp [h2, h3]
  have hcut : (NodeGraphTensor.nodes_including
      { g with graph_nodes := [n + 1], _adjacency := g._adjacency ++ [[]] }
      g.offset) = n + 1 := by
    simp [NodeGraphTensor.nodes_including, h2]
  simp only [hset, hcut]
  have htake : g._node_tensor.take (n + 1) = g._node_tensor :=
    List.take_of_length_le (by omega)
  have hdrop : g._node_tensor.drop (n + 1) = [] :=
    List.drop_eq_nil_of_le (by omega)
  simp [htake, hdrop, h4]

/-- Invariant for iterated `add_node` on a single-graph root batch. -/
lemma addNodes_inv (fs : List (List ℚ)) :
    ∀ (g : NodeGraphTensor) (n : ℕ),
    g.num_graphs = 1 → g.offset = 0 → g.graph_nodes = [n] →
    g._node_tensor.length = n →
    (g.addNodes fs).1 = (List.range' n fs.length).map Except.ok ∧
    (g.addNodes fs).2.graph_nodes = [n + fs.length] ∧
    (g.addNodes fs).2._node_tensor = g._node_tensor ++ fs := by
  induction fs with
  | nil =>
    intro g n h1 h2 h3 h4
    simp [NodeGraphTensor.addNodes, h3]
  | cons row rest ih =>
    intro g n h1 h2 h3 h4
    have hstep := addNode_step g n row h1 h2 h3 h4
    have hrec := ih
      { g with graph_nodes := [n + 1]
               _adjacency := g._adjacency ++ [[]]
               _node_tensor := g._node_tensor ++ [row] }
      (n + 1) h1 h2 rfl (by simp [h4])
    simp only [NodeGraphTensor.addNodes, hstep]
    refine ⟨?_, ?_, ?_⟩
    · simp [hrec.1, List.range'_succ]
    · simpa [Nat.add_assoc, Nat.add_comm 1 rest.length] using hrec.2.1
    · simpa using hrec.2.2

/-! ## Claim theorems -/

/-- **C1** (code_bug evidence).  `append` never succeeds: for every pair
of batches it raises before touching features, counts or adjacency — for
the concrete one-node batch appended with a two-node batch it raises
`TypeError` inside the index re-basing map, leaving only `num_graphs`
updated — while the specification's `append` (here `appendSpec`) produces
the claimed concatenation with `B`'s neighbour indices shifted by `A`'s
node count. -/
theorem append_always_raises :
    (∀ g other : NodeGraphTensor, ∃ s, (g.appendCode other).1 = Except.error s) ∧
    NodeGraphTensor.appendCode exOneNode exEdgePair =
      (Except.error "TypeError", { exOneNode with num_graphs := 2 }) ∧
    NodeGraphTensor.appendSpec exOneNode exEdgePair =
      { is_subgraph := false, offset := 0, num_graphs := 2
        graph_nodes := [1, 2], _adjacency := [[], [2], [1]]
        _node_tensor := [[1], [2], [3]] } := by
  refine ⟨?_, by rfl, by decide⟩
  intro g other
  unfold NodeGraphTensor.appendCode
  split
  · exact ⟨_, rfl⟩
  · split
    · exact ⟨_, rfl⟩
    · exact ⟨_, rfl⟩

/-- **C6** (counterexample).  On a one-node batch, `add_edge(0, 1)` fails
with `IndexError` but does *not* leave the batch unchanged: the invalid
target 1 has already been appended to `adjacency[0]`. -/
theorem addEdge_not_atomic :
    (exOneNode.addEdge 0 1).1 = Except.error "IndexError" ∧
    (exOneNode.addEdge 0 1).2 ≠ exOneNode ∧
    (exOneNode.addEdge 0 1).2._adjacency = [[1]] :=
  ⟨rfl, by decide, rfl⟩

/-- **C6** (amended).  A failed `add_node` leaves the batch unchanged
and a failed `append` leaves node features, counts and adjacency
unchanged; on a root batch, `add_edge` with an out-of-range source also
changes nothing, but `add_edge` with a valid source and an out-of-range
target fails only after appending the target to `adjacency[source]` —
so `add_edge` is not atomic. -/
theorem structural_mutation_atomicity :
    (∀ (g : NodeGraphTensor) (row : List ℚ) (s : String),
      (g.addNode row).1 = Except.error s → (g.addNode row).2 = g) ∧
    (∀ g other : NodeGraphTensor,
      (g.appendCode other).2.graph_nodes = g.graph_nodes ∧
      (g.appendCode other).2._adjacency = g._adjacency ∧
      (g.appendCode other).2._node_tensor = g._node_tensor) ∧
    (∀ (g : NodeGraphTensor) (s t : ℕ), g.is_subgraph = false →
      ¬ s < g._adjacency.length →
      g.addEdge s t = (Except.error "IndexError", g)) ∧
    (∀ (g : NodeGraphTensor) (s t : ℕ), g.is_subgraph = false →
      s < g._adjacency.length → ¬ t < g._adjacency.length →
      (g.addEdge s t).1 = Except.error "IndexError" ∧
      (g.addEdge s t).2._adjacency =
        g._adjacency.set s (g._adjacency.getD s [] ++ [t]) ∧
      (g.addEdge s t).2.graph_nodes = g.graph_nodes ∧
      (g.addEdge s t).2._node_tensor = g._node_tensor) := by
  refine ⟨?_, ?_, ?_, ?_⟩
  · intro g row s h
    by_cases h1 : g.num_graphs ≠ 1
    · simp [NodeGraphTensor.addNode, h1]
    · by_cases h2 : g.offset < g.graph_nodes.length
      · simp [NodeGraphTensor.addNode, h1, h2] at h
      · simp [NodeGraphTensor.addNode, h1, h2]
  · intro g other
    unfold NodeGraphTensor.appendCode
    split
    · exact ⟨rfl, rfl, rfl⟩
    · split <;> exact ⟨rfl, rfl, rfl⟩
  · intro g s t hroot hs
    obtain ⟨a, o, n, gn, adj, nt⟩ := g
    dsimp only at hroot hs
    subst hroot
    simp [NodeGraphTensor.addEdge, NodeGraphTensor.edgeSteps, hs]
  · intro g s t hroot hs ht
    refine ⟨?_, ?_, ?_, ?_⟩ <;>
      simp [NodeGraphTensor.addEdge, hroot, NodeGraphTensor.edgeSteps, hs, ht]

/-- **C6** (witness).  The amended claim applied at concrete inputs: a
failed `add_node` on a two-graph view leaves the batch unchanged, and
the failed root `add_edge(0, 1)` on a one-node batch leaves exactly the
half-inserted adjacency. -/
theorem structural_mutation_atomicity_witness :
    (exSubview.addNode [9]).2 = exSubview ∧
    (exOneNode.addEdge 0 1).2._adjacency =
      exOneNode._adjacency.set 0 (exOneNode._adjacency.getD 0 [] ++ [1]) :=
  ⟨structural_mutation_atomicity.1 exSubview [9] "AssertionError" (by rfl),
   (structural_mutation_atomicity.2.2.2 exOneNode 0 1 rfl
     (by decide) (by decide)).2.1⟩

/-- **C5**.  On a root batch whose adjacency length equals `N_total`, a
call `add_edge(i, j)` with `i, j < N_total` succeeds, makes `j` a member
of `adjacency[i]` and `i` a member of `adjacency[j]`, and leaves every
other adjacency entry unchanged. -/
lemma edgeSteps_ok (adj adj1 adj2 : List (List ℕ)) (i j : ℕ)
    (hi : i < adj.length) (hj : j < adj.length)
    (h1 : adj1 = adj.set i (adj.getD i [] ++ [j]))
    (h2 : adj2 = adj1.set j (adj1.getD j [] ++ [i])) :
    NodeGraphTensor.edgeSteps adj i j =
      (Except.ok ((adj2.getD i []).length - 1), adj2) := by
  subst h1
  subst h2
  have hj1 : j < (adj.set i (adj.getD i [] ++ [j])).length := by simpa using hj
  simp only [NodeGraphTensor.edgeSteps, if_pos hi, if_pos hj1]

theorem addEdge_symmetric (g : NodeGraphTensor) (i j : ℕ)
    (hroot : g.is_subgraph = false)
    (hlen : g._adjacency.length = g.Ntotal)
    (hi : i < g.Ntotal) (hj : j < g.Ntotal) :
    (∃ k, (g.addEdge i j).1 = Except.ok k) ∧
    j ∈ (g.addEdge i j).2._adjacency.getD i [] ∧
    i ∈ (g.addEdge i j).2._adjacency.getD j [] ∧
    ∀ k, k ≠ i → k ≠ j →
      (g.addEdge i j).2._adjacency.getD k [] = g._adjacency.getD k [] := by
  have hi' : i < g._adjacency.length := by rw [hlen]; exact hi
  have hj' : j < g._adjacency.length := by rw [hlen]; exact hj
  have hsteps := edgeSteps_ok g._adjacency _ _ i j hi' hj' rfl rfl
  have hrun : g.addEdge i j =
      ((NodeGraphTensor.edgeSteps g._adjacency i j).1,
        { g with _adjacency := (NodeGraphTensor.edgeSteps g._adjacency i j).2 }) := by
    simp [NodeGraphTensor.addEdge, hroot]
  rw [hrun, hsteps]
  have hj1 : j < (g._adjacency.set i (g._adjacency.getD i [] ++ [j])).length := by
    simpa using hj'
  refine ⟨⟨_, rfl⟩, ?_, ?_, ?_⟩
  · by_cases hij : i = j
    · subst hij
      rw [getD_set_self _ i hj1 _ []]
      simp
    · rw [getD_set_ne _ (Ne.symm hij) _ [], getD_set_self _ i hi' _ []]
      simp
  · rw [getD_set_self _ j hj1 _ []]
    simp
  · intro k hki hkj
    rw [getD_set_ne _ (Ne.symm hkj) _ [], getD_set_ne _ (Ne.symm hki) _ []]

/-- **C5** (witness).  `add_edge(0, 1)` on a two-node root batch: 1 lands
in `adjacency[0]` and 0 in `adjacency[1]`. -/
theorem addEdge_symmetric_witness :
    1 ∈ (exTwoNodes.addEdge 0 1).2._adjacency.getD 0 [] ∧
    0 ∈ (exTwoNodes.addEdge 0 1).2._adjacency.getD 1 [] := by
  have h := addEdge_symmetric exTwoNodes 0 1 rfl (by decide) (by decide) (by decide)
  exact ⟨h.2.1, h.2.2.1⟩

/-- **C9**.  Folding `n` `add_node` calls over a freshly created empty
batch succeeds throughout, returns the indices `0, 1, …, n-1` of the rows
appended, leaves `graph_node_counts = [n]`, and stores exactly the `n`
feature rows in order. -/
theorem addNode_counts (fs : List (List ℚ)) :
    (NodeGraphTensor.fresh.addNodes fs).1 = (List.range fs.length).map Except.ok ∧
    (NodeGraphTensor.fresh.addNodes fs).2.graph_nodes = [fs.length] ∧
    (NodeGraphTensor.fresh.addNodes fs).2._node_tensor = fs := by
  have h := addNodes_inv fs NodeGraphTensor.fresh 0 rfl rfl rfl rfl
  refine ⟨?_, ?_, ?_⟩
  · rw [h.1, List.range_eq_range']
  · simpa using h.2.1
  · simpa [NodeGraphTensor.fresh] using h.2.2

/-- **C10**.  The `node_tensor` property getter returns the adjacency
list object (`Sum.inr _adjacency`) whenever the batch is not a sub-view,
and the feature rows of the selected graph's index range
(`Sum.inl` of the slice between the node counts before and through
`offset`) when it is. -/
theorem node_tensor_getter (g : NodeGraphTensor) :
    (g.is_subgraph = false → g.node_tensor = Sum.inr g._adjacency) ∧
    (g.is_subgraph = true → g.node_tensor =
      Sum.inl (pySlice g._node_tensor (g.graph_nodes.take g.offset).sum
        (g.graph_nodes.take (g.offset + 1)).sum)) := by
  constructor <;> intro h
  · simp [NodeGraphTensor.node_tensor, h]
  · simp [NodeGraphTensor.node_tensor, h, viewStart_eq,
      NodeGraphTensor.nodes_including]

/-- **C10** (witness).  A root batch's getter yields its adjacency; the
sub-view selecting graph 1 of `exSubview` yields rows 1–2. -/
theorem node_tensor_getter_witness :
    exOneNode.node_tensor = Sum.inr [[]] ∧
    exSubview.node_tensor = Sum.inl [[2], [3]] :=
  ⟨(node_tensor_getter exOneNode).1 rfl, (node_tensor_getter exSubview).2 rfl⟩

lemma torchSumDim0_empty (w : ℕ) : torchSumDim0 ⟨w, []⟩ = zeroVec w := by
  simp [torchSumDim0, colOf, zeroVec, List.map_const']

lemma reluVec_getD (v : List ℚ) (j : ℕ) :
    (reluVec v)[j]?.getD 0 = max 0 (v[j]?.getD 0) := by
  unfold reluVec
  rcases h : v[j]? with _ | x <;> simp [List.getElem?_map, h]

/-- **C2** (counterexample).  The min reducer raises (`none`) on an empty
message matrix instead of returning a zero vector, and the dot-attention
variant returns the zero vector `[0]`, not the unchanged own feature
`[1]`. -/
theorem empty_messages_counterexample :
    NeighbourReducer.reduce torchMinDim0 [1] ⟨1, []⟩ = none ∧
    NeighbourDotAttention.reduce (fun x => x) [[1]] [0] [[1]] [0] [[1]] [0]
      [1] ⟨1, []⟩ = [0] ∧
    ([0] : List ℚ) ≠ [1] := by
  refine ⟨rfl, ?_, by norm_num⟩
  simp [NeighbourDotAttention.reduce, torchSumDim0, colOf]

/-- **C2** (amended).  On an empty neighbour-message matrix of width `w`:
the sum reducer returns the zero vector of width `w`; the mean reducer
returns no rational value (torch yields a NaN vector); the min, max and
median reducers raise (torch raises `RuntimeError`); and the
dot-product-attention variant — like the externally scored attention
variant — returns the zero vector of width `w` (the sum over an empty
set), not the unchanged own feature. -/
theorem empty_messages_behaviour (w : ℕ) (own : List ℚ) :
    NeighbourReducer.reduce torchSumDim0 own ⟨w, []⟩ = zeroVec w ∧
    NeighbourReducer.reduce torchMeanDim0 own ⟨w, []⟩ = none ∧
    NeighbourReducer.reduce torchMinDim0 own ⟨w, []⟩ = none ∧
    NeighbourReducer.reduce torchMaxDim0 own ⟨w, []⟩ = none ∧
    NeighbourReducer.reduce torchMedianDim0 own ⟨w, []⟩ = none ∧
    (∀ (e : ℚ → ℚ) (Wemb : List (List ℚ)) (bemb : List ℚ)
       (Wloc : List (List ℚ)) (bloc : List ℚ)
       (Wnbr : List (List ℚ)) (bnbr : List ℚ),
      NeighbourDotAttention.reduce e Wemb bemb Wloc bloc Wnbr bnbr
        own ⟨w, []⟩ = zeroVec w) ∧
    (∀ att : List ℚ → Mat → List ℚ,
      NeighbourAttention.reduce att own ⟨w, []⟩ = zeroVec w) := by
  refine ⟨torchSumDim0_empty w, rfl, rfl, rfl, rfl, ?_, ?_⟩
  · intro e Wemb bemb Wloc bloc Wnbr bnbr
    simpa [NeighbourDotAttention.reduce] using torchSumDim0_empty w
  · intro att
    simpa [NeighbourAttention.reduce] using torchSumDim0_empty w

/-- **C7** (counterexample).  With the identity linear layer, own feature
`[0]` and messages `[1]` and `[-1]`, the code returns
`0 + mean(relu(1), relu(-1)) = 1/2`, while the spec's formula
`own + relu(linear(mean(messages)))` yields `0 + relu(0) = 0`. -/
theorem neighbourLinear_counterexample :
    NeighbourLinear.reduce [[1]] [0] [0] ⟨1, [[1], [-1]]⟩ = some [1/2] ∧
    NeighbourLinear.reduceSpecFormula [[1]] [0] [0] ⟨1, [[1], [-1]]⟩
      = some [0] ∧
    NeighbourLinear.reduce [[1]] [0] [0] ⟨1, [[1], [-1]]⟩ ≠
      NeighbourLinear.reduceSpecFormula [[1]] [0] [0] ⟨1, [[1], [-1]]⟩ := by
  have h1 : NeighbourLinear.reduce [[1]] [0] [0] ⟨1, [[1], [-1]]⟩
      = some [1/2] := by
    simp [NeighbourLinear.reduce, torchMeanDim0, torchSumDim0, colOf,
      linApp, reluVec, Function.comp_def, List.range_succ]
  have h2 : NeighbourLinear.reduceSpecFormula [[1]] [0] [0] ⟨1, [[1], [-1]]⟩
      = some [0] := by
    simp [NeighbourLinear.reduceSpecFormula, torchMeanDim0, torchSumDim0,
      colOf, linApp, reluVec, Function.comp_def, List.range_succ]
  refine ⟨h1, h2, ?_⟩
  rw [h1, h2]
  simp

/-- **C7** (amended).  For a non-empty message matrix,
`NeighbourLinear.reduce` equals the own feature plus, componentwise, the
mean over the messages of `relu(linear(message))`: the linear map and the
ReLU are applied per message and the mean is taken afterwards. -/
theorem neighbourLinear_mean_after_relu (W : List (List ℚ)) (b : List ℚ)
    (own : List ℚ) (msg : Mat) (h : msg.rows ≠ []) :
    NeighbourLinear.reduce W b own msg =
      some (List.zipWith (· + ·) own
        ((List.range W.length).map (fun j =>
          ((msg.rows.map (fun r => max 0 ((linApp W b r).getD j 0))).sum)
            / msg.rows.length))) := by
  unfold NeighbourLinear.reduce torchMeanDim0
  rw [if_neg (by simpa using h)]
  simp [torchSumDim0, colOf, List.map_map, Function.comp_def,
    List.getD_eq_getElem?_getD, reluVec_getD]

/-- **C7** (witness).  The amended formula applied at the concrete
counterexample input, with own feature `[5]`: `5 + 1/2 = 11/2`. -/
theorem neighbourLinear_mean_after_relu_witness :
    NeighbourLinear.reduce [[1]] [0] [5] ⟨1, [[1], [-1]]⟩ = some [11/2] := by
  rw [neighbourLinear_mean_after_relu [[1]] [0] [5] ⟨1, [[1], [-1]]⟩
    (by simp)]
  simp [linApp, List.range_succ]
  norm_num

/-- **C8** (counterexample).  The only per-call arguments of `forward`
are the graph and `include_self`; both values of the flag produce the
augmented feature block `[[1, 2]]` on the one-node batch with a constant
reducer, and neither equals the replace-mode output `[[2]]` the claim
says is selectable, so no call selects a replace mode. -/
theorem forward_no_replace_mode :
    (NodeGraphNeighbourhood.forward (fun _ _ => [[2]]) (fun _ _ => [])
      none exOneNode true)._node_tensor = [[1, 2]] ∧
    (NodeGraphNeighbourhood.forward (fun _ _ => [[2]]) (fun _ _ => [])
      none exOneNode false)._node_tensor = [[1, 2]] ∧
    (NodeGraphNeighbourhood.replaceSpec (fun _ _ => [[2]]) (fun _ _ => [])
      none exOneNode)._node_tensor = [[2]] ∧
    ([[1, 2]] : List (List ℚ)) ≠ [[2]] :=
  ⟨rfl, rfl, rfl, by decide⟩

/-- **C8** (amended).  `forward` always operates in augment mode: the
`include_self` flag has no effect on the result, and every output feature
row is the node's original feature block followed by the aggregated
columns; no replace mode is exposed. -/
theorem forward_augment_only
    (reducer : NodeGraphTensor → List (List ℕ) → List (List ℚ))
    (traversal : NodeGraphTensor → ℕ → List ℕ)
    (order : Option (NodeGraphTensor → List ℕ → List ℕ))
    (g : NodeGraphTensor) (b : Bool) :
    NodeGraphNeighbourhood.forward reducer traversal order g b =
      NodeGraphNeighbourhood.forward reducer traversal order g (!b) ∧
    ∀ i r, (NodeGraphNeighbourhood.forward reducer traversal order g
        b)._node_tensor[i]? = some r →
      r = g._node_tensor.getD i [] ++
        (reducer g (NodeGraphNeighbourhood.gather traversal order
          g)).getD i [] := by
  refine ⟨rfl, ?_⟩
  intro i r hr
  simp only [NodeGraphNeighbourhood.forward, List.getElem?_zipWith] at hr
  rcases ha : g._node_tensor[i]? with _ | a <;> rw [ha] at hr
  · simp at hr
  · rcases hb : (reducer g (NodeGraphNeighbourhood.gather traversal order
        g))[i]? with _ | c <;> rw [hb] at hr
    · simp at hr
    · simp only [Option.map_some, Option.some_inj] at hr
      subst hr
      simp [List.getD_eq_getElem?_getD, ha, hb]

/-- **C8** (witness).  The amended claim applied to the one-node batch
with a constant reducer: the single output row is the original block
`[1]` followed by the aggregated column `[2]`. -/
theorem forward_augment_only_witness :
    ([1, 2] : List ℚ) = exOneNode._node_tensor.getD 0 [] ++
      ((fun (_ : NodeGraphTensor) (_ : List (List ℕ)) => [[(2 : ℚ)]])
        exOneNode
        (NodeGraphNeighbourhood.gather (fun _ _ => []) none
          exOneNode)).getD 0 [] :=
  (forward_augment_only (fun _ _ => [[2]]) (fun _ _ => []) none exOneNode
    true).2 0 [1, 2] rfl

lemma traversal_toFinset (g : NodeGraphTensor) :
    ∀ d e, (standard_node_traversal g d e).toFinset = traversalSpecSet g d e := by
  intro d
  induction d with
  | zero =>
    intro e
    simp [standard_node_traversal, traversalSpecSet]
  | succ d ih =>
    intro e
    ext x
    have ih' : ∀ a, x ∈ standard_node_traversal g d a ↔
        x ∈ traversalSpecSet g d a := by
      intro a
      rw [← List.mem_toFinset, ih a]
    simp [standard_node_traversal, traversalSpecSet, List.mem_dedup,
      List.mem_flatMap, List.mem_filter, ih', Finset.mem_biUnion]
    tauto

lemma traversalSpecSet_congr (g1 g2 : NodeGraphTensor)
    (hadj : ∀ i, (g1.adjacency.getD i []).toFinset =
      (g2.adjacency.getD i []).toFinset) :
    ∀ d e, traversalSpecSet g1 d e = traversalSpecSet g2 d e := by
  intro d
  induction d with
  | zero => intro e; rfl
  | succ d ih =>
    intro e
    simp only [traversalSpecSet]
    rw [hadj e, Finset.biUnion_congr rfl (fun x _ => ih x)]

/-- **C4**.  The default traversal realises, as a set, exactly the
claimed recursion (depth 0 is `{self}`; depth `d+1` adds the direct
neighbours and the depth-`d` expansion of every neighbour other than
self), gives `{2}`, `{1,2,3}` and `{0,1,2,3,4}` at depths 0, 1, 2 from
node 2 of the 5-node path graph, and — as the recursion depends only on
each adjacency entry's set of members — is independent of neighbour
enumeration order. -/
theorem standard_traversal_spec :
    (∀ (g : NodeGraphTensor) (d e : ℕ),
      (standard_node_traversal g d e).toFinset = traversalSpecSet g d e) ∧
    (standard_node_traversal pathGraph 0 2).toFinset = {2} ∧
    (standard_node_traversal pathGraph 1 2).toFinset = {1, 2, 3} ∧
    (standard_node_traversal pathGraph 2 2).toFinset = {0, 1, 2, 3, 4} ∧
    (∀ (g1 g2 : NodeGraphTensor) (d e : ℕ),
      (∀ i, (g1.adjacency.getD i []).toFinset =
        (g2.adjacency.getD i []).toFinset) →
      (standard_node_traversal g1 d e).toFinset =
        (standard_node_traversal g2 d e).toFinset) := by
  refine ⟨traversal_toFinset, by decide, by decide, by decide, ?_⟩
  intro g1 g2 d e hadj
  rw [traversal_toFinset, traversal_toFinset, traversalSpecSet_congr g1 g2 hadj]

/-- **C4** (witness).  Order-independence applied to the path graph and
its reverse-enumerated copy, at depth 2 from node 2. -/
theorem standard_traversal_spec_witness :
    (standard_node_traversal pathGraph 2 2).toFinset =
      (standard_node_traversal pathGraphRev 2 2).toFinset := by
  apply standard_traversal_spec.2.2.2.2 pathGraph pathGraphRev 2 2
  intro i
  rcases i with _ | _ | _ | _ | _ | n
  · decide
  · decide
  · decide
  · decide
  · decide
  · rw [List.getD_eq_default, List.getD_eq_default] <;>
      simp [pathGraph, pathGraphRev, NodeGraphTensor.adjacency]

/-- **C3** (code_bug evidence).  On the spec's own scenario — five
one-dimensional nodes in two groups of sizes 3 and 2, with identity-like
layers — the specified pipeline (`milCombineSpec`, the code with the
missing `indices` argument supplied) produces exactly one row per
non-empty group and the segment-softmax weights sum to 1 within each
group, for every positive exponential map; but `combine` as written calls
`scatter.sum` without the group indices and therefore raises instead of
producing any pooled row. -/
theorem milAttention_grouped_pooling (e : ℚ → ℚ) (hpos : ∀ x, 0 < e x) :
    (milCombineSpec (milP1 e) milNodes milIndices).length = 2 ∧
    groupWeightSum (scatterSoftmax e (milLogits (milP1 e) milNodes) milIndices)
      milIndices 0 0 = 1 ∧
    groupWeightSum (scatterSoftmax e (milLogits (milP1 e) milNodes) milIndices)
      milIndices 1 0 = 1 ∧
    milCombineCode (milP1 e) milNodes milIndices =
      Except.error "TypeError: scatter.sum() missing required argument: indices" := by
  have hlog : milLogits (milP1 e) milNodes = [[1], [4], [9], [16], [25]] := by
    simp [milLogits, milP1, milNodes, linApp]
    norm_num
  refine ⟨?_, ?_, ?_, rfl⟩
  · simp only [milCombineSpec, scatterSum, List.length_map]
    decide
  · rw [hlog]
    have h1 := hpos 1
    have h4 := hpos 4
    have h9 := hpos 9
    show e 1 / (e 1 + (e 4 + (e 9 + 0))) +
      (e 4 / (e 1 + (e 4 + (e 9 + 0))) +
        (e 9 / (e 1 + (e 4 + (e 9 + 0))) + 0)) = 1
    have hD : e 1 + (e 4 + (e 9 + 0)) ≠ 0 := by positivity
    field_simp
  · rw [hlog]
    have h16 := hpos 16
    have h25 := hpos 25
    show e 16 / (e 16 + (e 25 + 0)) + (e 25 / (e 16 + (e 25 + 0)) + 0) = 1
    have hD : e 16 + (e 25 + 0) ≠ 0 := by positivity
    field_simp

/-- **C3** (witness).  The pooling facts instantiated at the constant
map `e = 1` (uniform attention): two pooled rows and unit weight sums. -/
theorem milAttention_grouped_pooling_witness :
    (milCombineSpec (milP1 (fun _ => 1)) milNodes milIndices).length = 2 ∧
    groupWeightSum
      (scatterSoftmax (fun _ => 1) (milLogits (milP1 (fun _ => 1)) milNodes)
        milIndices) milIndices 0 0 = 1 :=
  ⟨(milAttention_grouped_pooling (fun _ => 1) (fun _ => by norm_num)).1,
   (milAttention_grouped_pooling (fun _ => 1) (fun _ => by norm_num)).2.1⟩
